import Mathlib

/-!
Shallow embedding of the FawltyDeps dependency-resolution engine
(fawltydeps/packages.py and fawltydeps/check.py).

Python strings are Lean `String`; Python `Set[str]` is `Finset String`
(for import-name sets) or a deduplicated `List String` (for iteration
over a requested set of names); Python `dict` is an insertion-ordered
association list (`Dict` below), matching Python 3.7+ dict semantics.
External effects (the filesystem, TOML parsing, the installed-package
metadata scan, and `pip install`) are passed in as oracle parameters.
Python exceptions are modelled with `Except`.
-/

namespace FawltyDeps

/-- Errors raised by the resolution engine: `unparseablePath` models
`UnparseablePathException` (raised by `UserDefinedMapping.__init__` for a
mapping path that is not a file), `noValidEnv` models the `ValueError`
raised by `LocalPackageResolver.__init__`, and `calledProcessError` models
`subprocess.CalledProcessError` raised by `subprocess.run(..., check=True)`
inside `TemporaryPipInstallResolver.temp_installed_requirements`. -/
inductive PyError where
  | unparseablePath (path : String)
  | noValidEnv
  | calledProcessError
  deriving DecidableEq, Repr

/-- An insertion-ordered string-keyed dictionary, the model of a Python
`dict` with `str` keys. -/
abbrev Dict (α : Type) : Type := List (String × α)

/-- Python `d[key]`, returning `none` on a missing key (first entry wins;
dictionaries built by the engine never hold duplicate keys). -/
def Dict.get? {α : Type} : Dict α → String → Option α
  | [], _ => none
  | (k, v) :: rest, key => if k = key then some v else Dict.get? rest key

/-- Python `key in d`. -/
def Dict.hasKey {α : Type} (d : Dict α) (key : String) : Bool :=
  (d.get? key).isSome

/-- Python `d[key] = value`: replace the value in place if the key exists,
otherwise append the new entry (Python 3.7+ insertion-order semantics). -/
def Dict.setItem {α : Type} : Dict α → String → α → Dict α
  | [], key, v => [(key, v)]
  | (k, v') :: rest, key, v =>
    if k = key then (k, v) :: rest else (k, v') :: Dict.setItem rest key v

/-- Python `d.update(other)`: set each entry of `other`, in order, into `d`. -/
def Dict.update {α : Type} (d other : Dict α) : Dict α :=
  other.foldl (fun acc kv => acc.setItem kv.1 kv.2) d

/-- Python's `mappings.setdefault(description, set()).update(import_names)`
from `Package.add_import_names`: union the given names into the set stored
under `description`, inserting a fresh entry if the key is absent. -/
def Dict.setdefaultUnion : Dict (Finset String) → String → Finset String →
    Dict (Finset String)
  | [], desc, names => [(desc, names)]
  | (k, v) :: rest, desc, names =>
    if k = desc then (k, v ∪ names) :: rest
    else (k, v) :: Dict.setdefaultUnion rest desc names

/-- ASCII lowercasing of one character, the per-character action of Python's
`str.lower()` on the package names handled by the engine. -/
def lowerChar (c : Char) : Char :=
  if 65 ≤ c.toNat ∧ c.toNat ≤ 90 then Char.ofNat (c.toNat + 32) else c

/-- The per-character action of Python's `.replace("-", "_")` (the pattern
is a single character, so the replacement is character-wise). -/
def replaceDash (c : Char) : Char :=
  if c = '-' then '_' else c

/-- Encapsulate an installable Python package: the `Package` dataclass of
fawltydeps/packages.py. `mappings` maps a provenance description to the
set of import names asserted by that source; `import_names` is the stored,
derived union over `mappings.values()`. -/
structure Package where
  package_name : String
  mappings : Dict (Finset String)
  import_names : Finset String
  deriving DecidableEq

/-- The union over `mappings.values()`, as computed by `__post_init__`. -/
def unionValues (m : Dict (Finset String)) : Finset String :=
  m.foldr (fun kv acc => kv.2 ∪ acc) ∅

/-- `Package(package_name, mappings)` construction: `__post_init__` sets
`import_names` to the union of all sets in `mappings.values()`. -/
def Package.make (package_name : String) (mappings : Dict (Finset String)) :
    Package :=
  ⟨package_name, mappings, unionValues mappings⟩

/-- `Package.normalize_name`: `package_name.lower().replace("-", "_")`. -/
def Package.normalize_name (package_name : String) : String :=
  ⟨(package_name.data.map lowerChar).map replaceDash⟩

/-- `Package.add_import_names(*import_names, description=...)`: union the
names into `mappings[description]` and update the stored `import_names`. -/
def Package.add_import_names (p : Package) (import_names : Finset String)
    (description : String) : Package :=
  { p with
    mappings := p.mappings.setdefaultUnion description import_names,
    import_names := p.import_names ∪ import_names }

/-- `Package.is_used(imported_names)`:
`bool(self.import_names.intersection(imported_names))`. -/
def Package.is_used (p : Package) (imported_names : List String) : Bool :=
  imported_names.any (fun n => n ∈ p.import_names)

/-- Lexicographic (code-point) comparison of two strings, the order used by
Python's `sorted()` on `str`. -/
def strLe : List Char → List Char → Bool
  | [], _ => true
  | _ :: _, [] => false
  | x :: xs, y :: ys =>
    if x.toNat < y.toNat then true
    else if y.toNat < x.toNat then false
    else strLe xs ys

/-- Insert a string into an already-sorted list (helper for `pySorted`). -/
def insertSorted (x : String) : List String → List String
  | [] => [x]
  | y :: ys => if strLe x.data y.data then x :: y :: ys else y :: insertSorted x ys

/-- Python's `sorted()` on a collection of strings (stable insertion sort,
ascending code-point order). -/
def pySorted : List String → List String
  | [] => []
  | x :: xs => insertSorted x (pySorted xs)

/-- A `CustomMapping` (fawltydeps/types.py): a dict mapping package names
to the list of import names they provide. -/
abbrev CustomMapping : Type := Dict (List String)

/-- One step of the loop body of `accumulate_mappings` in
fawltydeps/packages.py: `result.setdefault(normalized_name,
Package(normalized_name))` followed by
`package.add_import_names(*imports, description=description)`. Keys of
the accumulated dict are normalized package names, and each `Package` is
created as `Package(normalized_name)` before the imports are added. -/
def addMappingEntry (description : String) (result : Dict Package)
    (nameImports : String × List String) : Dict Package :=
  let normalized_name := Package.normalize_name nameImports.1
  let package :=
    match result.get? normalized_name with
    | some p => p
    | none => Package.make normalized_name []
  result.setItem normalized_name
    (package.add_import_names nameImports.2.toFinset description)

/-- Merge CustomMappings (with associated descriptions) into a dict of
Packages: `accumulate_mappings` of fawltydeps/packages.py. Every entry of
every custom mapping is folded, in order, into the accumulated result via
`addMappingEntry`. -/
def accumulate_mappings (custom_mappings : List (CustomMapping × String)) :
    Dict Package :=
  custom_mappings.foldl
    (fun result cmDesc => cmDesc.1.foldl (addMappingEntry cmDesc.2) result)
    []

/-- The state of a successfully constructed `UserDefinedMapping` resolver:
its validated mapping paths and the optional inline custom mapping. -/
structure UserDefinedMapping where
  mapping_paths : List String
  custom_mapping : Option CustomMapping
  deriving DecidableEq

/-- `UserDefinedMapping.__init__`: validate that every supplied mapping
path is a file (`isFile` is the filesystem oracle), raising
`UnparseablePathException` for the first path that is not. -/
def UserDefinedMapping.init (isFile : String → Bool)
    (mapping_paths : List String) (custom_mapping : Option CustomMapping) :
    Except PyError UserDefinedMapping :=
  match mapping_paths.find? (fun p => !(isFile p)) with
  | some p => .error (.unparseablePath p)
  | none => .ok ⟨mapping_paths, custom_mapping⟩

/-- The `UserDefinedMapping.packages` property: accumulate the inline
custom mapping (description "User-defined mapping from settings") followed
by each mapping file's parsed contents (description naming the path).
`readToml` is the oracle for reading and TOML-parsing a mapping file. -/
def UserDefinedMapping.packages (readToml : String → CustomMapping)
    (udm : UserDefinedMapping) : Dict Package :=
  accumulate_mappings
    ((match udm.custom_mapping with
      | some cm => [(cm, "User-defined mapping from settings")]
      | none => []) ++
      udm.mapping_paths.map
        (fun path => (readToml path, "User-defined mapping from " ++ path)))

/-- `UserDefinedMapping.lookup_packages`: return an entry, keyed by the
requested (original) spelling, for each requested name whose normalized
form is a key of the cached `packages` dict. -/
def UserDefinedMapping.lookup_packages (readToml : String → CustomMapping)
    (udm : UserDefinedMapping) (package_names : List String) : Dict Package :=
  package_names.filterMap
    (fun name =>
      ((udm.packages readToml).get? (Package.normalize_name name)).map
        (fun p => (name, p)))

/-- `LocalPackageResolver.lookup_packages`, parameterized by the resolver's
cached `packages` property (the dict, keyed by normalized package names,
that the code builds by scanning the environment's installed-distribution
metadata via importlib_metadata — an external effect, so the scan result
is an oracle here). Returns an entry, keyed by the requested spelling, for
each requested name found in the environment. -/
def LocalPackageResolver.lookup_packages (packages : Dict Package)
    (package_names : List String) : Dict Package :=
  package_names.filterMap
    (fun name =>
      (packages.get? (Package.normalize_name name)).map
        (fun p => (name, p)))

/-- `TemporaryPipInstallResolver.lookup_packages`: `pip install` the sorted
batch of requested names into a temporary venv, then resolve the original
names against that venv with `LocalPackageResolver`. `pipInstall` is the
oracle for the venv creation and `pip install --no-deps` subprocess: it
returns the installed venv's package dict (keyed by normalized names) on
success and `none` when the subprocess fails, in which case
`subprocess.run(..., check=True)` raises `CalledProcessError`. -/
def TemporaryPipInstallResolver.lookup_packages
    (pipInstall : List String → Option (Dict Package))
    (package_names : List String) : Except PyError (Dict Package) :=
  match pipInstall (pySorted package_names) with
  | none => .error .calledProcessError
  | some venvPackages =>
    .ok (LocalPackageResolver.lookup_packages venvPackages package_names)

/-- `IdentityMapping.lookup_package`: a `Package` whose single import name
is the normalized form of the package name. -/
def IdentityMapping.lookup_package (package_name : String) : Package :=
  (Package.make package_name []).add_import_names
    {Package.normalize_name package_name} "Identity mapping"

/-- `IdentityMapping.lookup_packages`: resolve every requested name. -/
def IdentityMapping.lookup_packages (package_names : List String) :
    Dict Package :=
  package_names.map (fun name => (name, IdentityMapping.lookup_package name))

/-- The external effects consumed by `resolve_dependencies`: the
filesystem check used by `UserDefinedMapping.__init__`, the TOML loading
of mapping files, the `LocalPackageResolver(pyenv_paths)` construction
(which either raises or yields the cached environment package dict), and
the `pip install` subprocess used by `TemporaryPipInstallResolver`. -/
structure Oracles where
  isFile : String → Bool
  readToml : String → CustomMapping
  localEnv : Except PyError (Dict Package)
  pipInstall : List String → Option (Dict Package)

/-- One entry of the resolvers stack built by `resolve_dependencies`.
`userDefined` and `localEnv` carry the state of their constructed
resolver; `tempInstall` and `identity` are stateless. -/
inductive Resolver where
  | userDefined (udm : UserDefinedMapping)
  | localEnv (packages : Dict Package)
  | tempInstall
  | identity

/-- Dispatch `lookup_packages` on a resolver. Only the temporary-install
resolver can fail; the other variants always return a dict. -/
def Resolver.lookup_packages (o : Oracles) :
    Resolver → List String → Except PyError (Dict Package)
  | .userDefined udm, names => .ok (udm.lookup_packages o.readToml names)
  | .localEnv packages, names =>
    .ok (LocalPackageResolver.lookup_packages packages names)
  | .tempInstall, names =>
    TemporaryPipInstallResolver.lookup_packages o.pipInstall names
  | .identity, names => .ok (IdentityMapping.lookup_packages names)

/-- The resolvers stack built by `resolve_dependencies`: User-Defined
Mapping, Local Environment Mapping, the Temporary Installation Resolver
when `install_deps` is set, and always Identity Mapping at the bottom. -/
def resolvers_stack (udm : UserDefinedMapping) (localPackages : Dict Package)
    (install_deps : Bool) : List Resolver :=
  [Resolver.userDefined udm, Resolver.localEnv localPackages] ++
    (if install_deps then [Resolver.tempInstall] else []) ++
    [Resolver.identity]

/-- The resolution loop of `resolve_dependencies`: for each resolver in
order, compute the unresolved subset (`deps - ret.keys()`), stop early if
it is empty, otherwise hand it to the resolver and merge the resolved
entries into the accumulated result. -/
def runResolvers (o : Oracles) :
    List Resolver → List String → Dict Package → Except PyError (Dict Package)
  | [], _, ret => .ok ret
  | r :: rs, deps, ret =>
    let unresolved := deps.filter (fun n => !(ret.hasKey n))
    if unresolved.isEmpty then .ok ret
    else
      match r.lookup_packages o unresolved with
      | .error e => .error e
      | .ok resolved => runResolvers o rs deps (ret.update resolved)

/-- Instrumented variant of `runResolvers` that also records the subset of
names handed to each resolver that was actually invoked. -/
def runResolversT (o : Oracles) :
    List Resolver → List String → Dict Package →
    Except PyError (Dict Package × List (List String))
  | [], _, ret => .ok (ret, [])
  | r :: rs, deps, ret =>
    let unresolved := deps.filter (fun n => !(ret.hasKey n))
    if unresolved.isEmpty then .ok (ret, [])
    else
      match r.lookup_packages o unresolved with
      | .error e => .error e
      | .ok resolved =>
        (runResolversT o rs deps (ret.update resolved)).map
          (fun rt => (rt.1, unresolved :: rt.2))

/-- `resolve_dependencies` of fawltydeps/packages.py: deduplicate the
given dependency names, construct the resolvers (construction errors
propagate), and run the resolution loop. -/
def resolve_dependencies (o : Oracles) (dep_names : List String)
    (custom_mapping_files : List String) (custom_mapping : Option CustomMapping)
    (install_deps : Bool) : Except PyError (Dict Package) :=
  let deps := dep_names.dedup
  match UserDefinedMapping.init o.isFile custom_mapping_files custom_mapping with
  | .error e => .error e
  | .ok udm =>
    match o.localEnv with
    | .error e => .error e
    | .ok localPackages =>
      runResolvers o (resolvers_stack udm localPackages install_deps) deps []

/-- Instrumented variant of `resolve_dependencies` that also returns the
subsets handed to each invoked resolver. -/
def resolve_dependenciesT (o : Oracles) (dep_names : List String)
    (custom_mapping_files : List String) (custom_mapping : Option CustomMapping)
    (install_deps : Bool) :
    Except PyError (Dict Package × List (List String)) :=
  let deps := dep_names.dedup
  match UserDefinedMapping.init o.isFile custom_mapping_files custom_mapping with
  | .error e => .error e
  | .ok udm =>
    match o.localEnv with
    | .error e => .error e
    | .ok localPackages =>
      runResolversT o (resolvers_stack udm localPackages install_deps) deps []

/-- `compare_imports_to_dependencies` of fawltydeps/check.py. `isStdlib`
is the oracle for `isort.place_module(module) == "STDLIB"`. Returns the
pair (undeclared, unused). -/
def compare_imports_to_dependencies (isStdlib : String → Bool)
    (imports dependencies : List String) : Finset String × Finset String :=
  let non_stdlib_imports := (imports.filter (fun m => !(isStdlib m))).toFinset
  let unique_dependencies := dependencies.toFinset
  (non_stdlib_imports \ unique_dependencies,
    unique_dependencies \ non_stdlib_imports)

deriving instance DecidableEq for Except

/-- Keys of a dict are pairwise distinct. -/
def KeysNodup {α : Type} (d : Dict α) : Prop := (d.map Prod.fst).Nodup

/-- All entries of a dict of packages are keyed by a normalized name that
is also the entry's package name. -/
def NormKeyed (d : Dict Package) : Prop :=
  ∀ e ∈ d, e.2.package_name = e.1 ∧ Package.normalize_name e.1 = e.1

/-- A concrete set of oracles for ground instances: every path exists and
reads as an empty TOML document, the local environment holds no packages,
and every pip-install invocation fails. -/
def failingPip : Oracles :=
  ⟨fun _ => true, fun _ => [], .ok [], fun _ => none⟩

/-- A concrete local environment that also provides apache_airflow, used
to exhibit resolver-chain precedence on a ground instance. -/
def airflowEnv : Dict Package :=
  [("apache_airflow",
    Package.make "apache_airflow" [("Python env at /sp", {"airflow2"})])]

/-- Concrete oracles where the local environment also resolves
apache_airflow (so a user-defined mapping for it must take precedence). -/
def airflowOracles : Oracles :=
  ⟨fun _ => true, fun _ => [], .ok airflowEnv, fun _ => none⟩

/-- The package that the user-defined mapping
"apache-airflow" -> ["airflow"] (given inline in the settings) resolves
to: named by the normalized spelling, with the settings provenance. -/
def airflowPkg : Package :=
  Package.make "apache_airflow"
    [("User-defined mapping from settings", {"airflow"})]

section Helpers

/-- Helper: lowering an uppercase ASCII letter adds 32 to its code point. -/
lemma lowerChar_toNat_of_upper (c : Char) (h : 65 ≤ c.toNat ∧ c.toNat ≤ 90) :
    (lowerChar c).toNat = c.toNat + 32 := by
  have hv : (c.toNat + 32).isValidChar := by
    left
    omega
  unfold lowerChar
  rw [if_pos h]
  unfold Char.ofNat
  rw [dif_pos hv]
  rfl

/-- Helper: `lowerChar` fixes characters outside the uppercase range. -/
lemma lowerChar_eq_self (c : Char) (h : ¬(65 ≤ c.toNat ∧ c.toNat ≤ 90)) :
    lowerChar c = c := by
  simp [lowerChar, h]

/-- Helper: `lowerChar` is idempotent on every character. -/
lemma lowerChar_idem (c : Char) : lowerChar (lowerChar c) = lowerChar c := by
  by_cases h : 65 ≤ c.toNat ∧ c.toNat ≤ 90
  · have h1 := lowerChar_toNat_of_upper c h
    apply lowerChar_eq_self
    omega
  · rw [lowerChar_eq_self c h, lowerChar_eq_self c h]

/-- Helper: the per-character normalization step is idempotent. -/
lemma replaceDash_lowerChar_idem (c : Char) :
    replaceDash (lowerChar (replaceDash (lowerChar c))) =
      replaceDash (lowerChar c) := by
  by_cases hd : lowerChar c = '-'
  · rw [hd]
    decide
  · have h2 : replaceDash (lowerChar c) = lowerChar c := by
      simp [replaceDash, hd]
    rw [h2, lowerChar_idem, h2]

/-- Helper: `Package.normalize_name` is idempotent. -/
lemma normalize_name_idem (s : String) :
    Package.normalize_name (Package.normalize_name s) =
      Package.normalize_name s := by
  show String.mk _ = String.mk _
  congr 1
  simp only [Package.normalize_name, List.map_map]
  induction s.data with
  | nil => rfl
  | cons c cs ih =>
    simp only [List.map_cons, Function.comp_apply, List.map_map] at *
    rw [ih]
    rw [replaceDash_lowerChar_idem]

end Helpers

section DictHelpers

variable {α : Type}

/-- Helper: key lookup after `setItem`. -/
lemma Dict.get?_setItem (d : Dict α) (k k' : String) (v : α) :
    (d.setItem k v).get? k' = if k = k' then some v else d.get? k' := by
  induction d with
  | nil => rfl
  | cons kv rest ih =>
    obtain ⟨k0, v0⟩ := kv
    by_cases h0 : k0 = k
    · subst h0
      simp only [Dict.setItem, if_pos rfl, Dict.get?]
      by_cases h1 : k0 = k'
      · simp [h1]
      · simp [h1]
    · simp only [Dict.setItem, if_neg h0, Dict.get?]
      by_cases h1 : k0 = k'
      · subst h1
        have hne : ¬(k = k0) := fun h => h0 h.symm
        simp [Dict.get?, hne]
      · simp [Dict.get?, h1, ih]

/-- Helper: a key is in a dict iff it is among the dict's keys list. -/
lemma Dict.get?_eq_none_iff (d : Dict α) (k : String) :
    d.get? k = none ↔ k ∉ d.map Prod.fst := by
  induction d with
  | nil => simp [Dict.get?]
  | cons kv rest ih =>
    obtain ⟨k0, v0⟩ := kv
    simp only [Dict.get?, List.map_cons, List.mem_cons]
    by_cases h0 : k0 = k
    · subst h0
      simp
    · have hne : ¬(k = k0) := fun h => h0 h.symm
      rw [if_neg h0, ih]
      simp only [hne]
      tauto

/-- Helper: updating with a dict that lacks the key leaves lookup alone. -/
lemma Dict.get?_update_of_none (d other : Dict α) (k : String)
    (h : other.get? k = none) : (d.update other).get? k = d.get? k := by
  induction other generalizing d with
  | nil => rfl
  | cons kv rest ih =>
    obtain ⟨k0, v0⟩ := kv
    simp only [Dict.get?] at h
    by_cases h0 : k0 = k
    · simp [h0] at h
    · simp only [if_neg h0] at h
      show (Dict.update (d.setItem k0 v0) rest).get? k = d.get? k
      rw [ih _ h, Dict.get?_setItem, if_neg h0]

/-- Helper: updating with a duplicate-free dict that binds the key makes
lookup return that binding. -/
lemma Dict.get?_update_of_some (d other : Dict α) (k : String) (v : α)
    (hnd : KeysNodup other) (h : other.get? k = some v) :
    (d.update other).get? k = some v := by
  induction other generalizing d with
  | nil => simp [Dict.get?] at h
  | cons kv rest ih =>
    obtain ⟨k0, v0⟩ := kv
    simp only [KeysNodup, List.map_cons] at hnd
    obtain ⟨hk0, hrest⟩ := List.nodup_cons.mp hnd
    simp only [Dict.get?] at h
    show (Dict.update (d.setItem k0 v0) rest).get? k = some v
    by_cases h0 : k0 = k
    · subst h0
      rw [if_pos rfl] at h
      have hnone : Dict.get? rest k0 = none := (Dict.get?_eq_none_iff rest k0).mpr hk0
      rw [Dict.get?_update_of_none _ _ _ hnone, Dict.get?_setItem, if_pos rfl]
      exact h
    · rw [if_neg h0] at h
      exact ih _ hrest h

/-- Helper: `update` has a key iff one of its operands does. -/
lemma Dict.hasKey_update (d other : Dict α) (k : String) :
    (d.update other).hasKey k = true ↔
      d.hasKey k = true ∨ other.hasKey k = true := by
  induction other generalizing d with
  | nil => simp [Dict.update, Dict.hasKey, Dict.get?]
  | cons kv rest ih =>
    obtain ⟨k0, v0⟩ := kv
    show (Dict.update (d.setItem k0 v0) rest).hasKey k = true ↔ _
    rw [ih]
    simp only [Dict.hasKey, Dict.get?_setItem, Dict.get?]
    by_cases h0 : k0 = k
    · simp [h0]
    · simp [h0]

end DictHelpers

section LookupHelpers

/-- Helper: looking up a name in a dict built by pairing each requested
name with the value of a per-name resolution function. This is the shape
shared by the user-defined and local-environment `lookup_packages`. -/
lemma Dict.get?_filterMap_pair {α : Type} (f : String → Option α)
    (names : List String) (n : String) :
    Dict.get? (names.filterMap (fun name => (f name).map (fun p => (name, p)))) n =
      if n ∈ names then f n else none := by
  induction names with
  | nil => simp [Dict.get?]
  | cons m rest ih =>
    cases hm : f m with
    | none =>
      have hcons :
          List.filterMap (fun name => (f name).map (fun p => (name, p))) (m :: rest) =
            List.filterMap (fun name => (f name).map (fun p => (name, p))) rest := by
        rw [List.filterMap_cons]
        simp [hm]
      rw [hcons, ih]
      by_cases hnm : n = m
      · subst hnm
        by_cases hn : n ∈ rest
        · simp [hn, hm]
        · simp [hn, hm]
      · simp [List.mem_cons, hnm]
    | some p =>
      have hcons :
          List.filterMap (fun name => (f name).map (fun p => (name, p))) (m :: rest) =
            (m, p) :: List.filterMap (fun name => (f name).map (fun p => (name, p))) rest := by
        rw [List.filterMap_cons]
        simp [hm]
      rw [hcons]
      simp only [Dict.get?]
      by_cases hnm : m = n
      · subst hnm
        simp [hm]
      · have hne : ¬(n = m) := fun h => hnm h.symm
        rw [if_neg hnm, ih]
        simp [List.mem_cons, hne]

/-- Helper: the keys of such a dict are the requested names that resolve. -/
lemma keys_filterMap_pair {α : Type} (f : String → Option α)
    (names : List String) :
    (names.filterMap (fun name => (f name).map (fun p => (name, p)))).map Prod.fst =
      names.filter (fun n => (f n).isSome) := by
  induction names with
  | nil => rfl
  | cons m rest ih =>
    rw [List.filterMap_cons, List.filter_cons]
    cases hm : f m with
    | none => simp [hm, ih]
    | some p => simp [hm, ih]

/-- Helper: identity-mapping lookup resolves exactly the requested names. -/
lemma get?_identity_lookup (names : List String) (n : String) :
    Dict.get? (IdentityMapping.lookup_packages names) n =
      if n ∈ names then some (IdentityMapping.lookup_package n) else none := by
  induction names with
  | nil => simp [IdentityMapping.lookup_packages, Dict.get?]
  | cons m rest ih =>
    simp only [IdentityMapping.lookup_packages, List.map_cons, Dict.get?] at *
    by_cases hnm : m = n
    · subst hnm
      simp
    · have hne : ¬(n = m) := fun h => hnm h.symm
      rw [if_neg hnm, ih]
      simp [List.mem_cons, hne]

/-- Helper: the keys of an identity-mapping lookup are the requested names. -/
lemma keys_identity_lookup (names : List String) :
    (IdentityMapping.lookup_packages names).map Prod.fst = names := by
  induction names with
  | nil => rfl
  | cons m rest ih =>
    simp only [IdentityMapping.lookup_packages, List.map_cons] at *
    rw [List.map_map] at ih
    simp [ih]

end LookupHelpers

section ResolverHelpers

/-- Helper: pointwise description of user-defined lookup. -/
lemma ud_lookup_get? (readToml : String → CustomMapping)
    (udm : UserDefinedMapping) (names : List String) (n : String) :
    Dict.get? (udm.lookup_packages readToml names) n =
      if n ∈ names then
        Dict.get? (udm.packages readToml) (Package.normalize_name n)
      else none :=
  Dict.get?_filterMap_pair _ names n

/-- Helper: pointwise description of local-environment lookup. -/
lemma le_lookup_get? (packages : Dict Package) (names : List String)
    (n : String) :
    Dict.get? (LocalPackageResolver.lookup_packages packages names) n =
      if n ∈ names then Dict.get? packages (Package.normalize_name n)
      else none :=
  Dict.get?_filterMap_pair _ names n

/-- Helper: every key of a successful lookup is a requested name. -/
lemma Resolver.lookup_keys_sub (o : Oracles) (r : Resolver)
    (names : List String) (d : Dict Package)
    (h : r.lookup_packages o names = .ok d) (n : String)
    (hk : Dict.hasKey d n = true) : n ∈ names := by
  have absent : Dict.get? d n ≠ none := by
    simp only [Dict.hasKey, Option.isSome_iff_ne_none] at hk
    exact hk
  cases r with
  | userDefined udm =>
    simp only [Resolver.lookup_packages, Except.ok.injEq] at h
    subst h
    rw [ud_lookup_get?] at absent
    by_cases hn : n ∈ names
    · exact hn
    · simp [hn] at absent
  | localEnv packages =>
    simp only [Resolver.lookup_packages, Except.ok.injEq] at h
    subst h
    rw [le_lookup_get?] at absent
    by_cases hn : n ∈ names
    · exact hn
    · simp [hn] at absent
  | tempInstall =>
    simp only [Resolver.lookup_packages,
      TemporaryPipInstallResolver.lookup_packages] at h
    cases hpip : o.pipInstall (pySorted names) with
    | none => rw [hpip] at h; cases h
    | some env =>
      rw [hpip] at h
      simp only [Except.ok.injEq] at h
      subst h
      rw [le_lookup_get?] at absent
      by_cases hn : n ∈ names
      · exact hn
      · simp [hn] at absent
  | identity =>
    simp only [Resolver.lookup_packages, Except.ok.injEq] at h
    subst h
    rw [get?_identity_lookup] at absent
    by_cases hn : n ∈ names
    · exact hn
    · simp [hn] at absent

/-- Helper: a successful lookup on duplicate-free names has
duplicate-free keys. -/
lemma Resolver.lookup_keysNodup (o : Oracles) (r : Resolver)
    (names : List String) (d : Dict Package) (hnd : names.Nodup)
    (h : r.lookup_packages o names = .ok d) : KeysNodup d := by
  cases r with
  | userDefined udm =>
    simp only [Resolver.lookup_packages, Except.ok.injEq] at h
    subst h
    unfold KeysNodup UserDefinedMapping.lookup_packages
    rw [keys_filterMap_pair]
    exact hnd.filter _
  | localEnv packages =>
    simp only [Resolver.lookup_packages, Except.ok.injEq] at h
    subst h
    unfold KeysNodup LocalPackageResolver.lookup_packages
    rw [keys_filterMap_pair]
    exact hnd.filter _
  | tempInstall =>
    simp only [Resolver.lookup_packages,
      TemporaryPipInstallResolver.lookup_packages] at h
    cases hpip : o.pipInstall (pySorted names) with
    | none => rw [hpip] at h; cases h
    | some env =>
      rw [hpip] at h
      simp only [Except.ok.injEq] at h
      subst h
      unfold KeysNodup LocalPackageResolver.lookup_packages
      rw [keys_filterMap_pair]
      exact hnd.filter _
  | identity =>
    simp only [Resolver.lookup_packages, Except.ok.injEq] at h
    subst h
    unfold KeysNodup
    rw [keys_identity_lookup]
    exact hnd

end ResolverHelpers

section ChainHelpers

/-- Helper: when the unresolved filter is empty, every dependency name is
already a key of the accumulated result. -/
lemma hasKey_of_filter_isEmpty (deps : List String) (ret : Dict Package)
    (he : (deps.filter (fun m => !(Dict.hasKey ret m))).isEmpty = true)
    (n : String) (hn : n ∈ deps) : Dict.hasKey ret n = true := by
  have hfe : deps.filter (fun m => !(Dict.hasKey ret m)) = [] :=
    List.isEmpty_iff.mp he
  by_cases hk : Dict.hasKey ret n = true
  · exact hk
  · have hmem : n ∈ deps.filter (fun m => !(Dict.hasKey ret m)) :=
      List.mem_filter.mpr ⟨hn, by simp [hk]⟩
    rw [hfe] at hmem
    cases hmem

/-- Helper: a name already resolved keeps its package through the rest of
the chain, and is never part of a subset handed to a later resolver. -/
lemma runResolversT_preserves (o : Oracles) (rs : List Resolver)
    (deps : List String) (ret : Dict Package) (n : String) (p : Package)
    (hret : Dict.get? ret n = some p)
    (rt : Dict Package × List (List String))
    (h : runResolversT o rs deps ret = .ok rt) :
    Dict.get? rt.1 n = some p ∧ ∀ s ∈ rt.2, n ∉ s := by
  induction rs generalizing ret rt with
  | nil =>
    simp only [runResolversT] at h
    injection h with h
    subst h
    exact ⟨hret, by simp⟩
  | cons r rs ih =>
    simp only [runResolversT] at h
    by_cases he : (deps.filter (fun m => !(Dict.hasKey ret m))).isEmpty = true
    · rw [if_pos he] at h
      injection h with h
      subst h
      exact ⟨hret, by simp⟩
    · rw [if_neg he] at h
      cases hlk : r.lookup_packages o
          (deps.filter (fun m => !(Dict.hasKey ret m))) with
      | error e => rw [hlk] at h; cases h
      | ok resolved =>
        rw [hlk] at h
        dsimp only at h
        cases hrec : runResolversT o rs deps (ret.update resolved) with
        | error e => rw [hrec] at h; cases h
        | ok rt2 =>
          rw [hrec] at h
          simp only [Except.map, Except.ok.injEq] at h
          subst h
          have hn_unres : n ∉ deps.filter (fun m => !(Dict.hasKey ret m)) := by
            intro hmem
            have hpred := (List.mem_filter.mp hmem).2
            simp [Dict.hasKey, hret] at hpred
          have hres_none : Dict.get? resolved n = none := by
            by_cases hcon : Dict.get? resolved n = none
            · exact hcon
            · have hkey : Dict.hasKey resolved n = true := by
                simp only [Dict.hasKey, Option.isSome_iff_ne_none]
                exact hcon
              exact absurd
                (Resolver.lookup_keys_sub o r _ resolved hlk n hkey) hn_unres
          have hpres : Dict.get? (ret.update resolved) n = some p := by
            rw [Dict.get?_update_of_none _ _ _ hres_none]
            exact hret
          have hrest := ih _ hpres rt2 hrec
          refine ⟨hrest.1, ?_⟩
          intro s hs
          rcases List.mem_cons.mp hs with hs1 | hs2
          · rw [hs1]
            exact hn_unres
          · exact hrest.2 s hs2

/-- Helper: with the identity mapping at the bottom of the stack, a
successful run resolves every dependency name. -/
lemma runResolvers_identity_last_total (o : Oracles) (rs : List Resolver)
    (deps : List String) (ret ret' : Dict Package)
    (h : runResolvers o (rs ++ [Resolver.identity]) deps ret = .ok ret')
    (n : String) (hn : n ∈ deps) : Dict.hasKey ret' n = true := by
  induction rs generalizing ret with
  | nil =>
    simp only [List.nil_append, runResolvers] at h
    by_cases he : (deps.filter (fun m => !(Dict.hasKey ret m))).isEmpty = true
    · rw [if_pos he] at h
      injection h with h
      subst h
      exact hasKey_of_filter_isEmpty deps _ he n hn
    · rw [if_neg he] at h
      simp only [Resolver.lookup_packages, runResolvers] at h
      injection h with h
      subst h
      rw [Dict.hasKey_update]
      by_cases hk : Dict.hasKey ret n = true
      · exact Or.inl hk
      · right
        have hmem : n ∈ deps.filter (fun m => !(Dict.hasKey ret m)) :=
          List.mem_filter.mpr ⟨hn, by simp [hk]⟩
        have hid : Dict.get? (IdentityMapping.lookup_packages
            (deps.filter (fun m => !(Dict.hasKey ret m)))) n =
            some (IdentityMapping.lookup_package n) := by
          rw [get?_identity_lookup, if_pos hmem]
        rw [Dict.hasKey, hid]
        rfl
  | cons r rs ih =>
    simp only [List.cons_append, runResolvers] at h
    by_cases he : (deps.filter (fun m => !(Dict.hasKey ret m))).isEmpty = true
    · rw [if_pos he] at h
      injection h with h
      subst h
      exact hasKey_of_filter_isEmpty deps _ he n hn
    · rw [if_neg he] at h
      cases hlk : r.lookup_packages o
          (deps.filter (fun m => !(Dict.hasKey ret m))) with
      | error e => rw [hlk] at h; cases h
      | ok resolved =>
        rw [hlk] at h
        dsimp only at h
        exact ih _ h

/-- Helper: every key of a successful run was a prior key or a
dependency name. -/
lemma runResolvers_keys_sub (o : Oracles) (rs : List Resolver)
    (deps : List String) (ret ret' : Dict Package)
    (h : runResolvers o rs deps ret = .ok ret') (n : String)
    (hk : Dict.hasKey ret' n = true) :
    Dict.hasKey ret n = true ∨ n ∈ deps := by
  induction rs generalizing ret with
  | nil =>
    simp only [runResolvers] at h
    injection h with h
    subst h
    exact Or.inl hk
  | cons r rs ih =>
    simp only [runResolvers] at h
    by_cases he : (deps.filter (fun m => !(Dict.hasKey ret m))).isEmpty = true
    · rw [if_pos he] at h
      injection h with h
      subst h
      exact Or.inl hk
    · rw [if_neg he] at h
      cases hlk : r.lookup_packages o
          (deps.filter (fun m => !(Dict.hasKey ret m))) with
      | error e => rw [hlk] at h; cases h
      | ok resolved =>
        rw [hlk] at h
        dsimp only at h
        rcases ih _ h with hk2 | hmem
        · rcases (Dict.hasKey_update ret resolved n).mp hk2 with hk3 | hk3
          · exact Or.inl hk3
          · right
            have := Resolver.lookup_keys_sub o r _ resolved hlk n hk3
            exact (List.mem_filter.mp this).1
        · exact Or.inr hmem

end ChainHelpers

section MoreHelpers

/-- Helper: the dash-replacement step never produces a hyphen. -/
lemma replaceDash_ne_dash (c : Char) : replaceDash c ≠ '-' := by
  unfold replaceDash
  by_cases h : c = '-'
  · rw [if_pos h]
    decide
  · rw [if_neg h]
    exact h

/-- Helper: lowercasing never produces an uppercase ASCII letter. -/
lemma lowerChar_not_upper (c : Char) :
    ¬(65 ≤ (lowerChar c).toNat ∧ (lowerChar c).toNat ≤ 90) := by
  by_cases h : 65 ≤ c.toNat ∧ c.toNat ≤ 90
  · rw [lowerChar_toNat_of_upper c h]
    omega
  · rw [lowerChar_eq_self c h]
    exact h

/-- Helper: the dash-replacement step maps non-upper chars to non-upper
chars. -/
lemma replaceDash_not_upper (c : Char)
    (h : ¬(65 ≤ c.toNat ∧ c.toNat ≤ 90)) :
    ¬(65 ≤ (replaceDash c).toNat ∧ (replaceDash c).toNat ≤ 90) := by
  unfold replaceDash
  by_cases hc : c = '-'
  · rw [if_pos hc]
    decide
  · rw [if_neg hc]
    exact h

/-- Helper: `setdefaultUnion` adds exactly the given names to the union of
all stored values. -/
lemma unionValues_setdefaultUnion (m : Dict (Finset String)) (desc : String)
    (names : Finset String) :
    unionValues (m.setdefaultUnion desc names) = unionValues m ∪ names := by
  induction m with
  | nil =>
    simp [Dict.setdefaultUnion, unionValues]
  | cons kv rest ih =>
    obtain ⟨k, v⟩ := kv
    by_cases h : k = desc
    · subst h
      simp only [Dict.setdefaultUnion, if_pos rfl, unionValues, List.foldr_cons]
      show (v ∪ names) ∪ unionValues rest = (v ∪ unionValues rest) ∪ names
      rw [Finset.union_assoc, Finset.union_assoc, Finset.union_comm names]
    · simp only [Dict.setdefaultUnion, if_neg h, unionValues, List.foldr_cons]
      show v ∪ unionValues (Dict.setdefaultUnion rest desc names) =
        (v ∪ unionValues rest) ∪ names
      rw [show unionValues (Dict.setdefaultUnion rest desc names) =
        unionValues rest ∪ names from ih]
      rw [Finset.union_assoc]

/-- Helper: `setdefaultUnion` with the same description and names twice is
the same as once. -/
lemma setdefaultUnion_idem (m : Dict (Finset String)) (desc : String)
    (names : Finset String) :
    (m.setdefaultUnion desc names).setdefaultUnion desc names =
      m.setdefaultUnion desc names := by
  induction m with
  | nil => simp [Dict.setdefaultUnion]
  | cons kv rest ih =>
    obtain ⟨k, v⟩ := kv
    by_cases h : k = desc
    · subst h
      simp [Dict.setdefaultUnion, Finset.union_assoc]
    · simp only [Dict.setdefaultUnion, if_neg h]
      rw [ih]

/-- Helper: membership after `setItem`. -/
lemma Dict.mem_setItem {α : Type} (d : Dict α) (k : String) (v : α)
    (e : String × α) (h : e ∈ d.setItem k v) : e = (k, v) ∨ e ∈ d := by
  induction d with
  | nil =>
    simp [Dict.setItem] at h
    exact Or.inl h
  | cons kv rest ih =>
    obtain ⟨k0, v0⟩ := kv
    by_cases h0 : k0 = k
    · subst h0
      simp only [Dict.setItem, if_pos rfl] at h
      rcases List.mem_cons.mp h with h1 | h2
      · exact Or.inl h1
      · exact Or.inr (List.mem_cons_of_mem _ h2)
    · simp only [Dict.setItem, if_neg h0] at h
      rcases List.mem_cons.mp h with h1 | h2
      · exact Or.inr (h1 ▸ List.mem_cons_self _ _)
      · rcases ih h2 with h3 | h4
        · exact Or.inl h3
        · exact Or.inr (List.mem_cons_of_mem _ h4)

/-- Helper: a successful lookup is a membership. -/
lemma Dict.get?_mem {α : Type} (d : Dict α) (k : String) (v : α)
    (h : Dict.get? d k = some v) : (k, v) ∈ d := by
  induction d with
  | nil => simp [Dict.get?] at h
  | cons kv rest ih =>
    obtain ⟨k0, v0⟩ := kv
    simp only [Dict.get?] at h
    by_cases h0 : k0 = k
    · subst h0
      rw [if_pos rfl] at h
      injection h with h
      subst h
      exact List.mem_cons_self _ _
    · rw [if_neg h0] at h
      exact List.mem_cons_of_mem _ (ih h)

end MoreHelpers

section NormKeyedHelpers

/-- Helper: `add_import_names` does not change the package name. -/
lemma add_import_names_package_name (p : Package) (ns : Finset String)
    (d : String) : (p.add_import_names ns d).package_name = p.package_name :=
  rfl

/-- Helper: `setItem` with a normalized key and a package named after it
preserves the `NormKeyed` invariant. -/
lemma normKeyed_setItem (d : Dict Package) (k : String) (p : Package)
    (hd : NormKeyed d) (hp : p.package_name = k)
    (hk : Package.normalize_name k = k) : NormKeyed (d.setItem k p) := by
  intro e he
  rcases Dict.mem_setItem d k p e he with h1 | h2
  · rw [h1]
    exact ⟨hp, hk⟩
  · exact hd e h2

/-- Helper: one accumulation step preserves the `NormKeyed` invariant. -/
lemma normKeyed_addMappingEntry (desc : String) (result : Dict Package)
    (hres : NormKeyed result) (ni : String × List String) :
    NormKeyed (addMappingEntry desc result ni) := by
  unfold addMappingEntry
  cases hget : Dict.get? result (Package.normalize_name ni.1) with
  | some p =>
    simp only [hget]
    apply normKeyed_setItem _ _ _ hres
    · rw [add_import_names_package_name]
      exact (hres _ (Dict.get?_mem _ _ _ hget)).1
    · exact normalize_name_idem ni.1
  | none =>
    simp only [hget]
    apply normKeyed_setItem _ _ _ hres
    · rfl
    · exact normalize_name_idem ni.1

/-- Helper: the inner entry fold preserves the `NormKeyed` invariant. -/
lemma normKeyed_entry_fold (desc : String)
    (entries : List (String × List String)) :
    ∀ result : Dict Package, NormKeyed result →
      NormKeyed (entries.foldl (addMappingEntry desc) result) := by
  induction entries with
  | nil => exact fun result h => h
  | cons ni rest ih =>
    intro result hres
    rw [List.foldl_cons]
    exact ih _ (normKeyed_addMappingEntry desc result hres ni)

/-- Helper: `accumulate_mappings` satisfies the `NormKeyed` invariant:
every entry is keyed by a normalized name that is also the package's
`package_name`. -/
lemma accumulate_mappings_normKeyed (cms : List (CustomMapping × String)) :
    NormKeyed (accumulate_mappings cms) := by
  unfold accumulate_mappings
  have general : ∀ result : Dict Package, NormKeyed result →
      NormKeyed (cms.foldl
        (fun result cmDesc => cmDesc.1.foldl (addMappingEntry cmDesc.2) result)
        result) := by
    induction cms with
    | nil => exact fun result h => h
    | cons cmDesc rest ih =>
      intro result hres
      rw [List.foldl_cons]
      exact ih _ (normKeyed_entry_fold cmDesc.2 cmDesc.1 result hres)
  exact general [] (fun e he => absurd he (List.not_mem_nil e))

end NormKeyedHelpers

section StepHelpers

/-- Helper: a list with a member is not empty. -/
lemma isEmpty_eq_false_of_mem {l : List String} {x : String} (h : x ∈ l) :
    l.isEmpty = false := by
  cases l with
  | nil => cases h
  | cons a as => rfl

/-- Helper: the first unresolved subset is the whole dependency set. -/
lemma filter_hasKey_nil (deps : List String) :
    deps.filter (fun m => !(Dict.hasKey ([] : Dict Package) m)) = deps :=
  List.filter_eq_self.mpr (fun _ _ => rfl)

/-- Helper: one successful step of the resolution loop. -/
lemma runResolvers_step (o : Oracles) (r : Resolver) (rs : List Resolver)
    (deps : List String) (ret resolved : Dict Package)
    (hne : (deps.filter (fun m => !(Dict.hasKey ret m))).isEmpty = false)
    (hlk : r.lookup_packages o (deps.filter (fun m => !(Dict.hasKey ret m))) =
      .ok resolved) :
    runResolvers o (r :: rs) deps ret =
      runResolvers o rs deps (ret.update resolved) := by
  simp only [runResolvers, hne, hlk]
  rfl

/-- Helper: one successful step of the instrumented resolution loop. -/
lemma runResolversT_step (o : Oracles) (r : Resolver) (rs : List Resolver)
    (deps : List String) (ret resolved : Dict Package)
    (hne : (deps.filter (fun m => !(Dict.hasKey ret m))).isEmpty = false)
    (hlk : r.lookup_packages o (deps.filter (fun m => !(Dict.hasKey ret m))) =
      .ok resolved) :
    runResolversT o (r :: rs) deps ret =
      (runResolversT o rs deps (ret.update resolved)).map
        (fun rt => (rt.1,
          (deps.filter (fun m => !(Dict.hasKey ret m))) :: rt.2)) := by
  simp only [runResolversT, hne, hlk]
  rfl

/-- Helper: one failing step of the resolution loop aborts it. -/
lemma runResolvers_step_error (o : Oracles) (r : Resolver) (rs : List Resolver)
    (deps : List String) (ret : Dict Package) (e : PyError)
    (hne : (deps.filter (fun m => !(Dict.hasKey ret m))).isEmpty = false)
    (hlk : r.lookup_packages o (deps.filter (fun m => !(Dict.hasKey ret m))) =
      .error e) :
    runResolvers o (r :: rs) deps ret = .error e := by
  simp only [runResolvers, hne, hlk]
  rfl

end StepHelpers

/-- C9: `Package.normalize_name` is a total function that lowercases its
input (no uppercase ASCII letter survives) and replaces every hyphen with
an underscore (no hyphen survives); it is idempotent, and it identifies
case/hyphen spelling variants: both "Foo-Bar" and "foo_bar" normalize to
"foo_bar". -/
theorem normalize_name_idempotent_and_total :
    (∀ x : String,
      Package.normalize_name (Package.normalize_name x) =
        Package.normalize_name x) ∧
    (∀ x : String, ∀ c ∈ (Package.normalize_name x).data, c ≠ '-') ∧
    (∀ x : String, ∀ c ∈ (Package.normalize_name x).data,
      ¬(65 ≤ c.toNat ∧ c.toNat ≤ 90)) ∧
    Package.normalize_name "Foo-Bar" = Package.normalize_name "foo_bar" ∧
    Package.normalize_name "foo_bar" = "foo_bar" := by
  refine ⟨normalize_name_idem, ?_, ?_, by decide, by decide⟩
  · intro x c hc
    simp only [Package.normalize_name, List.map_map, List.mem_map] at hc
    obtain ⟨c0, _, hc0⟩ := hc
    rw [← hc0]
    exact replaceDash_ne_dash (lowerChar c0)
  · intro x c hc
    simp only [Package.normalize_name, List.map_map, List.mem_map] at hc
    obtain ⟨c0, _, hc0⟩ := hc
    rw [← hc0]
    exact replaceDash_not_upper (lowerChar c0) (lowerChar_not_upper c0)

/-- C5: for every `Package`, after construction and after every call to
`add_import_names`, the stored `import_names` equals the union of all sets
in `mappings.values()`; adding the same import names again is idempotent,
and `add_import_names` is a total function with no error conditions. -/
theorem package_import_names_invariant :
    (∀ (name : String) (mappings : Dict (Finset String)),
      (Package.make name mappings).import_names =
        unionValues (Package.make name mappings).mappings) ∧
    (∀ (p : Package) (names : Finset String) (desc : String),
      p.import_names = unionValues p.mappings →
      (p.add_import_names names desc).import_names =
        unionValues (p.add_import_names names desc).mappings) ∧
    (∀ (p : Package) (names : Finset String) (desc : String),
      (p.add_import_names names desc).add_import_names names desc =
        p.add_import_names names desc) := by
  refine ⟨fun name mappings => rfl, ?_, ?_⟩
  · intro p names desc hinv
    show p.import_names ∪ names =
      unionValues (p.mappings.setdefaultUnion desc names)
    rw [unionValues_setdefaultUnion, hinv]
  · intro p names desc
    show Package.mk p.package_name
        ((p.mappings.setdefaultUnion desc names).setdefaultUnion desc names)
        ((p.import_names ∪ names) ∪ names) = _
    rw [setdefaultUnion_idem, Finset.union_assoc, Finset.union_self]
    rfl

/-- Witness for C5: the invariant transfer applied to a freshly
constructed concrete package. -/
theorem package_import_names_invariant_witness :
    ((Package.make "leftpadx" []).add_import_names {"leftpad"}
        "User-defined mapping from settings").import_names =
      unionValues ((Package.make "leftpadx" []).add_import_names {"leftpad"}
        "User-defined mapping from settings").mappings :=
  package_import_names_invariant.2.1 (Package.make "leftpadx" []) {"leftpad"}
    "User-defined mapping from settings" rfl

/-- C4: `IdentityMapping.lookup_packages` is total: the keys of its result
are exactly the requested names, and every requested name maps to a
`Package` keeping that spelling whose single import name is the normalized
form of the name, recorded under the "Identity mapping" provenance. -/
theorem identity_mapping_total (names : List String) (n : String)
    (hn : n ∈ names) :
    (IdentityMapping.lookup_packages names).map Prod.fst = names ∧
    ∃ p : Package,
      Dict.get? (IdentityMapping.lookup_packages names) n = some p ∧
      p.package_name = n ∧
      p.import_names = {Package.normalize_name n} ∧
      p.mappings = [("Identity mapping", {Package.normalize_name n})] := by
  refine ⟨keys_identity_lookup names, IdentityMapping.lookup_package n, ?_, rfl, ?_, rfl⟩
  · rw [get?_identity_lookup, if_pos hn]
  · show unionValues [] ∪ {Package.normalize_name n} = _
    show ∅ ∪ {Package.normalize_name n} = _
    rw [Finset.empty_union]

/-- Witness for C4: identity lookup at a concrete hyphenated name. -/
theorem identity_mapping_total_witness :
    (IdentityMapping.lookup_packages ["Foo-Bar"]).map Prod.fst = ["Foo-Bar"] ∧
    ∃ p : Package,
      Dict.get? (IdentityMapping.lookup_packages ["Foo-Bar"]) "Foo-Bar" =
        some p ∧
      p.package_name = "Foo-Bar" ∧
      p.import_names = {Package.normalize_name "Foo-Bar"} ∧
      p.mappings = [("Identity mapping", {Package.normalize_name "Foo-Bar"})] :=
  identity_mapping_total ["Foo-Bar"] "Foo-Bar" (by decide)

/-- C2: `compare_imports_to_dependencies` excludes standard-library import
names entirely; `undeclared` holds exactly the non-stdlib import names not
occurring among the dependency names, and `unused` holds exactly the
dependency names not occurring among the non-stdlib import names. -/
theorem compare_imports_to_dependencies_characterization
    (isStdlib : String → Bool) (imports dependencies : List String)
    (x : String) :
    (x ∈ (compare_imports_to_dependencies isStdlib imports dependencies).1 ↔
      x ∈ imports ∧ isStdlib x = false ∧ x ∉ dependencies) ∧
    (x ∈ (compare_imports_to_dependencies isStdlib imports dependencies).2 ↔
      x ∈ dependencies ∧ ¬(x ∈ imports ∧ isStdlib x = false)) := by
  unfold compare_imports_to_dependencies
  simp only [Finset.mem_sdiff, List.mem_toFinset, List.mem_filter,
    Bool.not_eq_true']
  tauto

/-- C8: `UserDefinedMapping` construction raises the path-validation error
exactly when some supplied mapping path is not a file (naming such a
path), succeeds when all paths are files, and the error is never deferred:
`lookup_packages` on a constructed resolver always returns a result. -/
theorem user_defined_mapping_path_validation (isFile : String → Bool)
    (paths : List String) (cm : Option CustomMapping) :
    ((∃ p ∈ paths, isFile p = false) →
      ∃ p ∈ paths, isFile p = false ∧
        UserDefinedMapping.init isFile paths cm =
          .error (.unparseablePath p)) ∧
    ((∀ p ∈ paths, isFile p = true) →
      UserDefinedMapping.init isFile paths cm = .ok ⟨paths, cm⟩) ∧
    (∀ (o : Oracles) (udm : UserDefinedMapping) (names : List String),
      Resolver.lookup_packages o (.userDefined udm) names =
        .ok (udm.lookup_packages o.readToml names)) := by
  refine ⟨?_, ?_, fun o udm names => rfl⟩
  · rintro ⟨p0, hp0, hfalse⟩
    cases hf : paths.find? (fun q => !(isFile q)) with
    | none =>
      exfalso
      rw [List.find?_eq_none] at hf
      exact absurd (by simp [hfalse] : (fun q => !(isFile q)) p0 = true)
        (hf p0 hp0)
    | some q =>
      refine ⟨q, List.mem_of_find?_eq_some hf, ?_, ?_⟩
      · have hq := List.find?_some hf
        simpa using hq
      · unfold UserDefinedMapping.init
        rw [hf]
  · intro hall
    have hf : paths.find? (fun q => !(isFile q)) = none := by
      rw [List.find?_eq_none]
      intro q hq
      simp [hall q hq]
    unfold UserDefinedMapping.init
    rw [hf]

/-- Witness for C8: a missing mapping path is rejected at construction. -/
theorem user_defined_mapping_path_validation_witness :
    ∃ p ∈ ["mapping.toml"], (fun _ : String => false) p = false ∧
      UserDefinedMapping.init (fun _ => false) ["mapping.toml"] none =
        .error (.unparseablePath p) :=
  (user_defined_mapping_path_validation (fun _ => false) ["mapping.toml"]
    none).1 ⟨"mapping.toml", List.mem_singleton.mpr rfl, rfl⟩

/-- Counterexample for C6: the temporary-install resolver variant does
raise for a batch it cannot resolve — with a failing pip install, its
`lookup_packages` returns an error instead of a result lacking the
unresolvable name. -/
theorem temp_install_lookup_raises :
    Resolver.lookup_packages failingPip .tempInstall ["leftpadx"] =
      .error .calledProcessError := by
  decide

/-- C6 (amended): the user-defined, local-environment and identity
resolver variants never raise at lookup time, and a requested name they
cannot resolve is simply absent from the returned dict; the
temporary-install variant behaves that way only when the batch install
succeeds, and raises `CalledProcessError` when the install fails. -/
theorem lookup_packages_misses_are_absent (o : Oracles)
    (names : List String) :
    (∀ udm : UserDefinedMapping,
      Resolver.lookup_packages o (.userDefined udm) names =
        .ok (udm.lookup_packages o.readToml names) ∧
      ∀ n ∈ names,
        Dict.get? (udm.packages o.readToml) (Package.normalize_name n) =
          none →
        Dict.get? (udm.lookup_packages o.readToml names) n = none) ∧
    (∀ packages : Dict Package,
      Resolver.lookup_packages o (.localEnv packages) names =
        .ok (LocalPackageResolver.lookup_packages packages names) ∧
      ∀ n ∈ names,
        Dict.get? packages (Package.normalize_name n) = none →
        Dict.get? (LocalPackageResolver.lookup_packages packages names) n =
          none) ∧
    (Resolver.lookup_packages o .identity names =
      .ok (IdentityMapping.lookup_packages names)) ∧
    (∀ venv : Dict Package, o.pipInstall (pySorted names) = some venv →
      Resolver.lookup_packages o .tempInstall names =
        .ok (LocalPackageResolver.lookup_packages venv names)) ∧
    (o.pipInstall (pySorted names) = none →
      Resolver.lookup_packages o .tempInstall names =
        .error .calledProcessError) := by
  refine ⟨?_, ?_, rfl, ?_, ?_⟩
  · intro udm
    refine ⟨rfl, ?_⟩
    intro n hn hmiss
    rw [ud_lookup_get?, if_pos hn]
    exact hmiss
  · intro packages
    refine ⟨rfl, ?_⟩
    intro n hn hmiss
    rw [le_lookup_get?, if_pos hn]
    exact hmiss
  · intro venv hvenv
    show TemporaryPipInstallResolver.lookup_packages o.pipInstall names = _
    unfold TemporaryPipInstallResolver.lookup_packages
    rw [hvenv]
  · intro hfail
    show TemporaryPipInstallResolver.lookup_packages o.pipInstall names = _
    unfold TemporaryPipInstallResolver.lookup_packages
    rw [hfail]

/-- Witness for C6 (amended): a name missing from an empty user-defined
mapping is absent from the lookup result, not an error. -/
theorem lookup_packages_misses_are_absent_witness :
    Dict.get? (UserDefinedMapping.lookup_packages failingPip.readToml
      ⟨[], none⟩ ["leftpadx"]) "leftpadx" = none :=
  ((lookup_packages_misses_are_absent failingPip ["leftpadx"]).1
    ⟨[], none⟩).2 "leftpadx" (by decide) (by decide)

/-- Counterexample for C3: a user-defined mapping declared as "Foo-Bar"
and requested as "Foo-Bar" yields a result keyed by the original spelling
whose `Package.package_name` is the normalized "foo_bar", not the
caller's original spelling. -/
theorem package_name_not_original_spelling :
    ((Dict.get? (UserDefinedMapping.lookup_packages (fun _ => [])
        ⟨[], some [("Foo-Bar", ["foo"])]⟩ ["Foo-Bar"]) "Foo-Bar").map
      Package.package_name) = some "foo_bar" ∧
    ("foo_bar" : String) ≠ "Foo-Bar" := by
  constructor
  · decide
  · decide

/-- C3 (amended): result dicts of every lookup and of
`resolve_dependencies` are keyed by the caller's original requested
spelling while matching is performed on normalized names, and the
identity mapping keeps the original spelling as `package_name`; but the
user-defined mapping tables are keyed by normalized names whose packages
carry the normalized name as `package_name`, not the original spelling. -/
theorem result_keys_original_matching_normalized (o : Oracles) :
    (∀ (udm : UserDefinedMapping) (names : List String) (n : String),
      Dict.get? (udm.lookup_packages o.readToml names) n =
        if n ∈ names then
          Dict.get? (udm.packages o.readToml) (Package.normalize_name n)
        else none) ∧
    (∀ (packages : Dict Package) (names : List String) (n : String),
      Dict.get? (LocalPackageResolver.lookup_packages packages names) n =
        if n ∈ names then Dict.get? packages (Package.normalize_name n)
        else none) ∧
    (∀ cms : List (CustomMapping × String), ∀ e ∈ accumulate_mappings cms,
      e.2.package_name = e.1 ∧ Package.normalize_name e.1 = e.1) ∧
    (∀ (names : List String) (n : String) (p : Package),
      Dict.get? (IdentityMapping.lookup_packages names) n = some p →
      p.package_name = n) ∧
    (∀ (dep_names files : List String) (cm : Option CustomMapping)
      (install_deps : Bool) (ret : Dict Package),
      resolve_dependencies o dep_names files cm install_deps = .ok ret →
      ∀ n, Dict.hasKey ret n = true → n ∈ dep_names) := by
  refine ⟨fun udm names n => ud_lookup_get? o.readToml udm names n,
    fun packages names n => le_lookup_get? packages names n,
    fun cms => accumulate_mappings_normKeyed cms, ?_, ?_⟩
  · intro names n p h
    by_cases hn : n ∈ names
    · rw [get?_identity_lookup, if_pos hn] at h
      injection h with h
      rw [← h]
      rfl
    · rw [get?_identity_lookup, if_neg hn] at h
      cases h
  · intro dep_names files cm install_deps ret h n hk
    unfold resolve_dependencies at h
    cases hud : UserDefinedMapping.init o.isFile files cm with
    | error e => rw [hud] at h; cases h
    | ok udm =>
      rw [hud] at h
      dsimp only at h
      cases hle : o.localEnv with
      | error e => rw [hle] at h; cases h
      | ok lp =>
        rw [hle] at h
        dsimp only at h
        rcases runResolvers_keys_sub o _ _ _ _ h n hk with hfalse | hmem
        · simp [Dict.hasKey, Dict.get?] at hfalse
        · exact List.mem_dedup.mp hmem

/-- Witness for C3 (amended): identity mapping keeps the caller's original
spelling. -/
theorem result_keys_original_witness :
    (IdentityMapping.lookup_package "Foo-Bar").package_name = "Foo-Bar" :=
  (result_keys_original_matching_normalized failingPip).2.2.2.1 ["Foo-Bar"]
    "Foo-Bar" (IdentityMapping.lookup_package "Foo-Bar") (by decide)

/-- Counterexample for C7: when the pip install of the batch fails, the
whole resolution errors out; it does not defer the batch to the next
resolver (the identity mapping, which would have resolved it). -/
theorem temp_install_failure_no_deferral :
    resolve_dependencies failingPip ["leftpadx"] [] none true =
      .error .calledProcessError ∧
    ∀ ret : Dict Package,
      resolve_dependencies failingPip ["leftpadx"] [] none true ≠ .ok ret := by
  constructor
  · decide
  · intro ret h
    have h0 : resolve_dependencies failingPip ["leftpadx"] [] none true =
        .error .calledProcessError := by decide
    rw [h0] at h
    cases h

/-- C7 (amended): a failing batch install in the temporary-install
resolver is a hard error for the whole batch that contributes no
mappings, and the error propagates out of `resolve_dependencies` —
resolution aborts instead of deferring the batch to the next resolver. -/
theorem temp_install_failure_propagates (o : Oracles)
    (dep_names files : List String) (cm : Option CustomMapping)
    (udm : UserDefinedMapping) (lp : Dict Package) (n : String)
    (hud : UserDefinedMapping.init o.isFile files cm = .ok udm)
    (hle : o.localEnv = .ok lp)
    (hn : n ∈ dep_names)
    (h1 : Dict.get? (udm.packages o.readToml) (Package.normalize_name n) =
      none)
    (h2 : Dict.get? lp (Package.normalize_name n) = none)
    (hpip : ∀ batch, o.pipInstall batch = none) :
    resolve_dependencies o dep_names files cm true =
      .error .calledProcessError := by
  unfold resolve_dependencies
  rw [hud]
  dsimp only
  rw [hle]
  dsimp only
  have hstack : resolvers_stack udm lp true =
      [Resolver.userDefined udm, Resolver.localEnv lp, Resolver.tempInstall,
        Resolver.identity] := rfl
  rw [hstack]
  have hdn : n ∈ dep_names.dedup := List.mem_dedup.mpr hn
  have hf0 : dep_names.dedup.filter
      (fun m => !(Dict.hasKey ([] : Dict Package) m)) = dep_names.dedup :=
    filter_hasKey_nil dep_names.dedup
  have hne0 : (dep_names.dedup.filter
      (fun m => !(Dict.hasKey ([] : Dict Package) m))).isEmpty = false := by
    rw [hf0]
    exact isEmpty_eq_false_of_mem hdn
  have hlk0 : Resolver.lookup_packages o (.userDefined udm)
      (dep_names.dedup.filter (fun m => !(Dict.hasKey ([] : Dict Package) m))) =
      .ok (udm.lookup_packages o.readToml dep_names.dedup) := by
    rw [hf0]
    rfl
  rw [runResolvers_step o _ _ dep_names.dedup [] _ hne0 hlk0]
  have hudn : Dict.get? (udm.lookup_packages o.readToml dep_names.dedup) n =
      none := by
    rw [ud_lookup_get?, if_pos hdn]
    exact h1
  have hret1n : Dict.get? (Dict.update []
      (udm.lookup_packages o.readToml dep_names.dedup)) n = none := by
    rw [Dict.get?_update_of_none _ _ _ hudn]
    rfl
  have hn1 : n ∈ dep_names.dedup.filter (fun m => !(Dict.hasKey
      (Dict.update [] (udm.lookup_packages o.readToml dep_names.dedup)) m)) :=
    List.mem_filter.mpr ⟨hdn, by rw [Dict.hasKey, hret1n]; rfl⟩
  have hne1 := isEmpty_eq_false_of_mem hn1
  rw [runResolvers_step o (.localEnv lp) _ dep_names.dedup _ _ hne1 rfl]
  have hlen : Dict.get? (LocalPackageResolver.lookup_packages lp
      (dep_names.dedup.filter (fun m => !(Dict.hasKey
        (Dict.update [] (udm.lookup_packages o.readToml dep_names.dedup))
        m)))) n = none := by
    rw [le_lookup_get?]
    by_cases hmem : n ∈ dep_names.dedup.filter (fun m => !(Dict.hasKey
        (Dict.update [] (udm.lookup_packages o.readToml dep_names.dedup)) m))
    · rw [if_pos hmem]
      exact h2
    · rw [if_neg hmem]
  have hret2n : Dict.get? (Dict.update
      (Dict.update [] (udm.lookup_packages o.readToml dep_names.dedup))
      (LocalPackageResolver.lookup_packages lp
        (dep_names.dedup.filter (fun m => !(Dict.hasKey
          (Dict.update [] (udm.lookup_packages o.readToml dep_names.dedup))
          m))))) n = none := by
    rw [Dict.get?_update_of_none _ _ _ hlen]
    exact hret1n
  have hn2 : n ∈ dep_names.dedup.filter (fun m => !(Dict.hasKey
      (Dict.update
        (Dict.update [] (udm.lookup_packages o.readToml dep_names.dedup))
        (LocalPackageResolver.lookup_packages lp
          (dep_names.dedup.filter (fun m => !(Dict.hasKey
            (Dict.update [] (udm.lookup_packages o.readToml dep_names.dedup))
            m))))) m)) :=
    List.mem_filter.mpr ⟨hdn, by rw [Dict.hasKey, hret2n]; rfl⟩
  have hne2 := isEmpty_eq_false_of_mem hn2
  apply runResolvers_step_error o .tempInstall _ dep_names.dedup _
    .calledProcessError hne2
  show TemporaryPipInstallResolver.lookup_packages o.pipInstall _ = _
  unfold TemporaryPipInstallResolver.lookup_packages
  rw [hpip]

/-- Witness for C7 (amended): concrete aborting resolution with a failing
pip install. -/
theorem temp_install_failure_propagates_witness :
    resolve_dependencies failingPip ["SQLObject"] [] none true =
      .error .calledProcessError :=
  temp_install_failure_propagates failingPip ["SQLObject"] [] none
    ⟨[], none⟩ [] "SQLObject" rfl rfl (by decide) (by decide) (by decide)
    (fun _ => rfl)

/-- C1: the resolvers stack is exactly User-Defined Mapping, Local
Environment Mapping, Temporary Installation Resolver when enabled, then
Identity Mapping; the first resolver is handed the full dependency set,
and a name the user-defined mapping resolves carries that resolver's
package in the final result (first match wins) and is never part of a
subset handed to any later resolver. -/
theorem resolver_chain_first_match_wins (o : Oracles)
    (dep_names files : List String) (cm : Option CustomMapping)
    (install_deps : Bool) (udm : UserDefinedMapping) (lp : Dict Package)
    (n : String) (p : Package) (rt : Dict Package × List (List String))
    (hud : UserDefinedMapping.init o.isFile files cm = .ok udm)
    (hle : o.localEnv = .ok lp)
    (hn : n ∈ dep_names)
    (hp : Dict.get? (udm.packages o.readToml) (Package.normalize_name n) =
      some p)
    (h : resolve_dependenciesT o dep_names files cm install_deps = .ok rt) :
    resolvers_stack udm lp install_deps =
      [Resolver.userDefined udm, Resolver.localEnv lp] ++
        (if install_deps then [Resolver.tempInstall] else []) ++
        [Resolver.identity] ∧
    rt.2.head? = some dep_names.dedup ∧
    Dict.get? rt.1 n = some p ∧
    ∀ s ∈ rt.2.drop 1, n ∉ s := by
  refine ⟨rfl, ?_⟩
  unfold resolve_dependenciesT at h
  rw [hud] at h
  dsimp only at h
  rw [hle] at h
  dsimp only at h
  have hdn : n ∈ dep_names.dedup := List.mem_dedup.mpr hn
  have hstack : resolvers_stack udm lp install_deps =
      Resolver.userDefined udm :: ([Resolver.localEnv lp] ++
        (if install_deps then [Resolver.tempInstall] else []) ++
        [Resolver.identity]) := by
    cases install_deps <;> rfl
  rw [hstack] at h
  have hne0 : (dep_names.dedup.filter
      (fun m => !(Dict.hasKey ([] : Dict Package) m))).isEmpty = false := by
    rw [filter_hasKey_nil]
    exact isEmpty_eq_false_of_mem hdn
  rw [runResolversT_step o (Resolver.userDefined udm) _ dep_names.dedup []
      (udm.lookup_packages o.readToml (dep_names.dedup.filter
        (fun m => !(Dict.hasKey ([] : Dict Package) m)))) hne0 rfl] at h
  rw [filter_hasKey_nil] at h
  cases hrec : runResolversT o
      ([Resolver.localEnv lp] ++
        (if install_deps then [Resolver.tempInstall] else []) ++
        [Resolver.identity]) dep_names.dedup
      (Dict.update [] (udm.lookup_packages o.readToml dep_names.dedup)) with
  | error e => rw [hrec] at h; cases h
  | ok rt2 =>
    rw [hrec] at h
    simp only [Except.map, Except.ok.injEq] at h
    subst h
    have hudres : Dict.get? (udm.lookup_packages o.readToml dep_names.dedup)
        n = some p := by
      rw [ud_lookup_get?, if_pos hdn]
      exact hp
    have hnd : KeysNodup (udm.lookup_packages o.readToml dep_names.dedup) := by
      unfold KeysNodup UserDefinedMapping.lookup_packages
      rw [keys_filterMap_pair]
      exact (List.nodup_dedup dep_names).filter _
    have hret1 : Dict.get? (Dict.update []
        (udm.lookup_packages o.readToml dep_names.dedup)) n = some p :=
      Dict.get?_update_of_some _ _ _ _ hnd hudres
    have hpres := runResolversT_preserves o _ dep_names.dedup _ n p hret1
      rt2 hrec
    refine ⟨rfl, hpres.1, ?_⟩
    intro s hs
    exact hpres.2 s hs

/-- Witness for C1: with apache_airflow resolvable both by the inline
user-defined mapping and by the local environment, the result carries the
user-defined package. -/
theorem resolver_chain_first_match_wins_witness :
    Dict.get? [("apache_airflow", airflowPkg)] "apache_airflow" =
      some airflowPkg :=
  (resolver_chain_first_match_wins airflowOracles ["apache_airflow"] []
    (some [("apache-airflow", ["airflow"])]) false
    ⟨[], some [("apache-airflow", ["airflow"])]⟩ airflowEnv
    "apache_airflow" airflowPkg
    ([("apache_airflow", airflowPkg)], [["apache_airflow"]])
    rfl rfl (by decide) (by decide) (by decide)).2.2.1

/-- C10: `resolve_dependencies` always puts the Identity Mapping at the
bottom of the resolvers stack, whatever the `install_deps` flag, and on
every successful run the key set of the returned dict is exactly the set
of requested dependency names. -/
theorem resolve_dependencies_resolves_every_name (o : Oracles)
    (dep_names files : List String) (cm : Option CustomMapping)
    (install_deps : Bool) (ret : Dict Package)
    (h : resolve_dependencies o dep_names files cm install_deps = .ok ret) :
    (∀ (udm : UserDefinedMapping) (lp : Dict Package) (b : Bool),
      ∃ front, resolvers_stack udm lp b = front ++ [Resolver.identity]) ∧
    ∀ n, Dict.hasKey ret n = true ↔ n ∈ dep_names := by
  constructor
  · intro udm lp b
    cases b with
    | false => exact ⟨[Resolver.userDefined udm, Resolver.localEnv lp], rfl⟩
    | true =>
      exact ⟨[Resolver.userDefined udm, Resolver.localEnv lp,
        Resolver.tempInstall], rfl⟩
  · intro n
    unfold resolve_dependencies at h
    cases hud : UserDefinedMapping.init o.isFile files cm with
    | error e => rw [hud] at h; cases h
    | ok udm =>
      rw [hud] at h
      dsimp only at h
      cases hle : o.localEnv with
      | error e => rw [hle] at h; cases h
      | ok lp =>
        rw [hle] at h
        dsimp only at h
        constructor
        · intro hk
          rcases runResolvers_keys_sub o _ _ _ _ h n hk with hfalse | hmem
          · simp [Dict.hasKey, Dict.get?] at hfalse
          · exact List.mem_dedup.mp hmem
        · intro hmem
          have hstack : resolvers_stack udm lp install_deps =
              ([Resolver.userDefined udm, Resolver.localEnv lp] ++
                (if install_deps then [Resolver.tempInstall] else [])) ++
              [Resolver.identity] := by
            cases install_deps <;> rfl
          rw [hstack] at h
          exact runResolvers_identity_last_total o _ _ _ _ h n
            (List.mem_dedup.mpr hmem)

/-- Witness for C10: a name that no other resolver can handle is still a
key of the successful result, via the identity mapping. -/
theorem resolve_dependencies_resolves_every_name_witness :
    Dict.hasKey [("some-foo", IdentityMapping.lookup_package "some-foo")]
      "some-foo" = true ↔ "some-foo" ∈ ["some-foo"] :=
  (resolve_dependencies_resolves_every_name failingPip ["some-foo"] [] none
    false [("some-foo", IdentityMapping.lookup_package "some-foo")]
    (by decide)).2 "some-foo"

end FawltyDeps
